import Mathlib

/-!
Shallow embedding of the shift-scheduler core (slot generation and the fair
assignment engine) from `app/algorithm.py`, `app/routes.py` and `app/models.py`.

Datetimes are modelled as minutes since an arbitrary epoch (`ℕ`); calendar
days are blocks of 1440 minutes, so `t / 1440` is the date of `t` and
`t % 1440` is its wall-clock time in minutes.  Python float arithmetic on
hours and difficulty multipliers is modelled with `ℚ`.
-/

namespace Scheduler

/-- Severity of a diagnostic message produced by the engine
(the first component of the `algo_messages` tuples). -/
inductive Sev where
  | error
  | warning
  | info
  | success
deriving DecidableEq

/-- `JobRole` row: only the fields the assignment engine reads.
`difficulty_multiplier` is the column added by migration
`025a00ce901a_add_difficulty_multiplier_to_jobrole.py` (a float, default 1.0). -/
structure JobRole where
  id : ℕ
  difficulty_multiplier : ℚ
deriving DecidableEq

/-- `WorkerRoleRating` row: the subjective per-(worker, role) difficulty rating.
The class itself is not in the checked-in `models.py`; its fields are those
read by `get_worker_individual_difficulty` (`worker_id`, `job_role_id`,
`difficulty_rating`). -/
structure WorkerRoleRating where
  worker_id : ℕ
  job_role_id : ℕ
  difficulty_rating : ℚ
deriving DecidableEq

/-- `Constraint` row: an unavailability interval of a worker. -/
structure Constraint where
  start_datetime : ℕ
  end_datetime : ℕ
deriving DecidableEq

/-- `Worker` row with its eagerly loaded relationships
(`qualified_roles` as a list of role ids, `constraints`). -/
structure Worker where
  id : ℕ
  max_hours_per_week : Option ℤ
  qualified_role_ids : List ℕ
  constraints : List Constraint
deriving DecidableEq

/-- `ShiftDefinition` row: one concrete coverage slot. -/
structure ShiftDefinition where
  id : ℕ
  slot_start_datetime : ℕ
  slot_end_datetime : ℕ
  instance_number : ℕ
  job_role_id : ℕ
deriving DecidableEq

/-- `slot_def.duration_total_seconds / 3600.0`: the slot duration in real
hours (minutes difference divided by 60, as an exact rational). -/
def durationHours (sd : ShiftDefinition) : ℚ :=
  (((sd.slot_end_datetime : ℤ) - (sd.slot_start_datetime : ℤ) : ℤ) : ℚ) / 60

/-- The calendar date (`datetime.date()`) of a minute-valued datetime,
as an integer so that earlier dates can be subtracted below it. -/
def dateOf (t : ℕ) : ℤ := ((t / 1440 : ℕ) : ℤ)

/-- One recorded recent assignment: `(worker_id, date, role_id)`.  The nested
`defaultdict(lambda: defaultdict(set))` of `assign_shifts_fairly` is modelled
as the list of triples that were added to it. -/
abbrev RecentEntry : Type := ℕ × ℤ × ℕ

/-- `worker_id in recent_assignments`: some entry belongs to this worker. -/
def workerInRecent (recent : List RecentEntry) (wid : ℕ) : Bool :=
  recent.any fun e => e.1 == wid

/-- `check_date in recent_assignments[worker_id] and role_id in
recent_assignments[worker_id][check_date]`. -/
def recentContains (recent : List RecentEntry) (wid : ℕ) (d : ℤ) (rid : ℕ) : Bool :=
  recent.any fun e => e.1 == wid && e.2.1 == d && e.2.2 == rid

/-- The `for days_back in range(1, 4)` scan of `get_recent_role_penalty`,
taking the list of `days_back` values still to check. -/
def penaltyScan (recent : List RecentEntry) (wid rid : ℕ) (slotDate : ℤ) :
    List ℕ → ℚ
  | [] => 1
  | daysBack :: rest =>
    if recentContains recent wid (slotDate - daysBack) rid then
      (5 / 2 : ℚ) - (1 / 2) * daysBack
    else
      penaltyScan recent wid rid slotDate rest

/-- `get_recent_role_penalty(worker_id, role_id, slot_start, recent_assignments)`
from `app/algorithm.py`. -/
def get_recent_role_penalty (wid rid : ℕ) (slotStart : ℕ)
    (recent : List RecentEntry) : ℚ :=
  if workerInRecent recent wid then
    penaltyScan recent wid rid (dateOf slotStart) [1, 2, 3]
  else
    1

/-- `JobRole.query.get(job_role_id)`: look a role up by id. -/
def findRole (roles : List JobRole) (rid : ℕ) : Option JobRole :=
  roles.find? fun r => r.id == rid

/-- The base (objective) difficulty of a role, falling back to 1.0 when the role
id resolves to no role (`role.difficulty_multiplier if role else 1.0`). -/
def baseDifficulty (roles : List JobRole) (rid : ℕ) : ℚ :=
  match findRole roles rid with
  | some r => r.difficulty_multiplier
  | none => 1

/-- `WorkerRoleRating.query.filter_by(worker_id=…, job_role_id=…).first()`. -/
def findRating (ratings : List WorkerRoleRating) (wid rid : ℕ) :
    Option WorkerRoleRating :=
  ratings.find? fun r => r.worker_id == wid && r.job_role_id == rid

/-- `get_worker_individual_difficulty(worker_id, job_role_id, alpha)` from
`app/algorithm.py`. -/
def get_worker_individual_difficulty (roles : List JobRole)
    (ratings : List WorkerRoleRating) (wid rid : ℕ) (alpha : ℚ) : ℚ :=
  match findRating ratings wid rid with
  | some ir => alpha * baseDifficulty roles rid + (1 - alpha) * ir.difficulty_rating
  | none => baseDifficulty roles rid

/-- Helper: a matching triple for some day implies the worker key exists. -/
theorem workerInRecent_of_recentContains {recent : List RecentEntry}
    {wid : ℕ} {d : ℤ} {rid : ℕ} (h : recentContains recent wid d rid = true) :
    workerInRecent recent wid = true := by
  simp only [recentContains, List.any_eq_true, Bool.and_eq_true, beq_iff_eq] at h
  obtain ⟨e, he, ⟨h1, _⟩, _⟩ := h
  simp only [workerInRecent, List.any_eq_true, beq_iff_eq]
  exact ⟨e, he, h1⟩

/-- Claim C1 (counterexample): with a history whose only matching assignment
is exactly three days before the slot, the rotation penalty evaluates to 1.0,
not the 1.2 stated by the claim. -/
theorem C1_counterexample :
    get_recent_role_penalty 7 3 (3 * 1440) [(7, (0 : ℤ), 3)] = 1 ∧
      (1 : ℚ) ≠ 12 / 10 := by
  constructor
  · simp [get_recent_role_penalty, workerInRecent, penaltyScan, recentContains, dateOf]
    norm_num
  · norm_num

/-- Claim C1 (amended): the rotation penalty scans one, two and three days
back and returns `2.5 − 0.5·daysBack` at the nearest day on which the worker
held the role; at three days back this formula yields 1.0, the same value as
no match at all, so the result is 2.0 for yesterday, 1.5 for two days back,
and 1.0 otherwise. -/
theorem C1_rotation_penalty (recent : List RecentEntry) (wid rid : ℕ)
    (slotStart : ℕ) :
    get_recent_role_penalty wid rid slotStart recent =
      (if recentContains recent wid (dateOf slotStart - 1) rid then 2
       else if recentContains recent wid (dateOf slotStart - 2) rid then 3 / 2
       else 1) := by
  unfold get_recent_role_penalty
  by_cases hin : workerInRecent recent wid
  · simp only [hin, if_true, penaltyScan]
    by_cases h1 : recentContains recent wid (dateOf slotStart - 1) rid <;>
      by_cases h2 : recentContains recent wid (dateOf slotStart - 2) rid <;>
        by_cases h3 : recentContains recent wid (dateOf slotStart - 3) rid <;>
          simp [h1, h2, h3] <;> norm_num
  · simp only [hin, if_false]
    have h1 : recentContains recent wid (dateOf slotStart - 1) rid = false := by
      by_contra h
      exact hin (workerInRecent_of_recentContains (by simpa using h))
    have h2 : recentContains recent wid (dateOf slotStart - 2) rid = false := by
      by_contra h
      exact hin (workerInRecent_of_recentContains (by simpa using h))
    simp [h1, h2]

/-- Claim C2: the effective difficulty is `α·base + (1−α)·subjective` when a
subjective rating exists for the (worker, role) pair, and the base difficulty
alone when none exists. -/
theorem C2_hybrid_difficulty (roles : List JobRole)
    (ratings : List WorkerRoleRating) (wid rid : ℕ) (alpha : ℚ) :
    (∀ ir, findRating ratings wid rid = some ir →
      get_worker_individual_difficulty roles ratings wid rid alpha =
        alpha * baseDifficulty roles rid + (1 - alpha) * ir.difficulty_rating) ∧
    (findRating ratings wid rid = none →
      get_worker_individual_difficulty roles ratings wid rid alpha =
        baseDifficulty roles rid) := by
  constructor
  · intro ir h
    simp [get_worker_individual_difficulty, h]
  · intro h
    simp [get_worker_individual_difficulty, h]

/-- Claim C2 (witness): both branches of the hybrid-difficulty theorem at
concrete inputs. -/
theorem C2_hybrid_difficulty_witness :
    (get_worker_individual_difficulty [⟨4, 3⟩] [⟨1, 4, 5⟩] 1 4 (1 / 2) =
      (1 / 2) * baseDifficulty [⟨4, 3⟩] 4 + (1 - 1 / 2) * 5) ∧
    (get_worker_individual_difficulty [⟨4, 3⟩] [⟨1, 4, 5⟩] 2 4 (1 / 2) =
      baseDifficulty [⟨4, 3⟩] 4) := by
  constructor
  · exact (C2_hybrid_difficulty [⟨4, 3⟩] [⟨1, 4, 5⟩] 1 4 (1 / 2)).1 ⟨1, 4, 5⟩ (by
      simp [findRating])
  · exact (C2_hybrid_difficulty [⟨4, 3⟩] [⟨1, 4, 5⟩] 2 4 (1 / 2)).2 (by
      simp [findRating])

/-- `is_worker_qualified_for_slot(worker, slot_def)`: false when the
`job_role` relationship of the slot resolves to no role, otherwise membership
of the role id of the slot in the qualified role ids of the worker. -/
def is_worker_qualified_for_slot (roles : List JobRole) (w : Worker)
    (sd : ShiftDefinition) : Bool :=
  match findRole roles sd.job_role_id with
  | none => false
  | some _ => w.qualified_role_ids.contains sd.job_role_id

/-- One unavailability constraint overlaps the slot
(`slot.start < c.end and slot.end > c.start`). -/
def constraintOverlaps (sd : ShiftDefinition) (c : Constraint) : Bool :=
  decide (sd.slot_start_datetime < c.end_datetime) &&
    decide (sd.slot_end_datetime > c.start_datetime)

/-- `is_worker_available_for_slot(worker, slot_def)`: qualification plus no
overlapping unavailability constraint. -/
def is_worker_available_for_slot (roles : List JobRole) (w : Worker)
    (sd : ShiftDefinition) : Bool :=
  is_worker_qualified_for_slot roles w sd &&
    !(w.constraints.any fun c => constraintOverlaps sd c)

/-- Overlap test used for shifts already assigned in this run:
`max(starts) < min(ends)`. -/
def slotsOverlap (a b : ShiftDefinition) : Bool :=
  decide (max a.slot_start_datetime b.slot_start_datetime <
    min a.slot_end_datetime b.slot_end_datetime)

/-- The max-hours gate: `if worker.max_hours_per_week:` is Python truthiness,
so a missing cap and a cap of 0 both skip the check entirely; otherwise the
worker passes iff `real_hours + duration` does not exceed the cap. -/
def maxHoursOk (w : Worker) (realHours dur : ℚ) : Bool :=
  match w.max_hours_per_week with
  | none => true
  | some c => if c = 0 then true else !decide (realHours + dur > (c : ℚ))

/-- The linear congruential generator standing in for the Python seeded
`random.random()` stream: tie-break draws are its successive states. -/
def rngNext (s : ℕ) : ℕ := (1103515245 * s + 12345) % 2147483648

/-- Take `n` tie-break draws from the generator, returning them in order
together with the final generator state. -/
def rngDraws : ℕ → ℕ → List ℕ × ℕ
  | 0, s => ([], s)
  | n + 1, s =>
    let s' := rngNext s
    let (ds, s'') := rngDraws n s'
    (s' :: ds, s'')

/-- All inputs of one engine run, fully materialized (the ORM queries of
`assign_shifts_fairly` pre-fetch exactly these). -/
structure Env where
  slotDefs : List ShiftDefinition
  roles : List JobRole
  ratings : List WorkerRoleRating
  alpha : ℚ
  workers : List Worker

/-- `slot_definitions_map.get(assignment_obj.shift_definition_id)`. -/
def findSlotDef (env : Env) (pid : ℕ) : Option ShiftDefinition :=
  env.slotDefs.find? fun sd => sd.id == pid

/-- The mutable bookkeeping of the engine during a run. -/
structure AlgoState where
  realHours : ℕ → ℚ
  weightedHours : ℕ → ℚ
  assignedSlots : ℕ → List ShiftDefinition
  recent : List RecentEntry
  assignments : List (ℕ × Option ℕ)
  messages : List Sev
  unassigned : ℕ
  rng : ℕ

/-- The bookkeeping at the start of a run: all ledgers empty. -/
def initState (rng0 : ℕ) : AlgoState where
  realHours := fun _ => 0
  weightedHours := fun _ => 0
  assignedSlots := fun _ => []
  recent := []
  assignments := []
  messages := []
  unassigned := 0
  rng := rng0

/-- The per-worker eligibility test of the main loop: hard constraints,
no overlap with a shift already assigned in this run, and the max-hours gate. -/
def eligibleFor (env : Env) (st : AlgoState) (sd : ShiftDefinition) (dur : ℚ)
    (w : Worker) : Bool :=
  is_worker_available_for_slot env.roles w sd &&
    !((st.assignedSlots w.id).any fun o => slotsOverlap sd o) &&
    maxHoursOk w (st.realHours w.id) dur

/-- The `eligible_workers` list: for each eligible worker (in worker-list
order) the pair of their id and their effective weighted hours
`weighted_hours × rotation_penalty`. -/
def eligibleWorkers (env : Env) (st : AlgoState) (sd : ShiftDefinition)
    (dur : ℚ) : List (ℕ × ℚ) :=
  env.workers.filterMap fun w =>
    if eligibleFor env st sd dur w then
      some (w.id, st.weightedHours w.id *
        get_recent_role_penalty w.id sd.job_role_id sd.slot_start_datetime st.recent)
    else
      none

/-- The comparison used by `eligible_workers.sort(key=lambda x: (x[1],
random.random()))`: lexicographic on (score, tie-break draw). -/
def scoreKeyLe (a b : (ℕ × ℚ) × ℕ) : Bool :=
  decide (a.1.2 < b.1.2) || (decide (a.1.2 = b.1.2) && decide (a.2 ≤ b.2))

/-- One iteration of the main `for assignment_obj in all_pending_assignments`
loop, processing the pending assignment with slot id `pid`. -/
def processOne (env : Env) (st : AlgoState) (pid : ℕ) : AlgoState :=
  match findSlotDef env pid with
  | none =>
    { st with
        assignments := st.assignments ++ [(pid, none)]
        messages := st.messages ++ [Sev.warning]
        unassigned := st.unassigned + 1 }
  | some sd =>
    let dur := durationHours sd
    let elig := eligibleWorkers env st sd dur
    let dr := rngDraws elig.length st.rng
    match (elig.zip dr.1).mergeSort scoreKeyLe with
    | [] =>
      { st with
          assignments := st.assignments ++ [(pid, none)]
          messages := st.messages ++ [Sev.warning]
          unassigned := st.unassigned + 1
          rng := dr.2 }
    | ((wid, _), _) :: _ =>
      let diff := get_worker_individual_difficulty env.roles env.ratings wid
        sd.job_role_id env.alpha
      { st with
          assignments := st.assignments ++ [(pid, some wid)]
          realHours := fun i => if i = wid then st.realHours i + dur else st.realHours i
          weightedHours := fun i =>
            if i = wid then st.weightedHours i + dur * diff else st.weightedHours i
          assignedSlots := fun i =>
            if i = wid then st.assignedSlots i ++ [sd] else st.assignedSlots i
          recent := st.recent ++ [(wid, dateOf sd.slot_start_datetime, sd.job_role_id)]
          rng := dr.2 }

/-- The sort key comparison of `all_pending_assignments.sort(key=get_start_time)`:
ascending slot start time, with a missing slot definition mapping to
`datetime.max` and therefore ordering after every real start time. -/
def startKeyLe (env : Env) (a b : ℕ) : Bool :=
  match findSlotDef env a, findSlotDef env b with
  | none, none => true
  | none, some _ => false
  | some _, none => true
  | some x, some y => decide (x.slot_start_datetime ≤ y.slot_start_datetime)

/-- The in-place stable sort of the pending list by slot start time. -/
def sort_pending (env : Env) (pending : List ℕ) : List ℕ :=
  pending.mergeSort (startKeyLe env)

/-- The result of one engine run: the success flag, the diagnostics
(`algo_messages` severities, in order), the processed assignments in
processing order, and the final fairness ledgers. -/
structure AlgoResult where
  success : Bool
  messages : List Sev
  assignments : List (ℕ × Option ℕ)
  realHours : ℕ → ℚ
  weightedHours : ℕ → ℚ

/-- `assign_shifts_fairly(all_pending_assignments, workers, active_period)`
from `app/algorithm.py`: short-circuits on an empty worker list, returns early
on an empty pending list, otherwise sorts the pending list by start time and
greedily assigns each slot to the eligible worker with the least effective
weighted hours (ties broken by the seeded tie-break draws). -/
def assign_shifts_fairly (env : Env) (pending : List ℕ) (rng0 : ℕ) : AlgoResult :=
  if env.workers.isEmpty then
    { success := false
      messages := [Sev.error]
      assignments := pending.map fun i => (i, none)
      realHours := fun _ => 0
      weightedHours := fun _ => 0 }
  else if pending.isEmpty then
    { success := true
      messages := [Sev.info]
      assignments := []
      realHours := fun _ => 0
      weightedHours := fun _ => 0 }
  else
    let final := (sort_pending env pending).foldl (processOne env) (initState rng0)
    { success := final.unassigned == 0
      messages := final.messages ++ [if final.unassigned > 0 then Sev.info else Sev.success]
      assignments := final.assignments
      realHours := final.realHours
      weightedHours := final.weightedHours }

/-- A run keyed by the caller-supplied seed, as in the route handler that
calls `random.seed(random_seed)` before running the engine: all tie-breaking
randomness is drawn from the generator built from that seed. -/
def run_with_seed (env : Env) (pending : List ℕ) (seed : ℕ) : AlgoResult :=
  assign_shifts_fairly env pending seed

/-- Claim C5: with no workers the engine fails immediately — every slot stays
unassigned, exactly one error diagnostic is emitted and `success` is false;
with workers but no pending slots it returns `success = true`, an empty
assignment list and a single info note. -/
theorem C5_degenerate_inputs (env : Env) (pending : List ℕ) (rng0 : ℕ) :
    (env.workers = [] →
      assign_shifts_fairly env pending rng0 =
        { success := false
          messages := [Sev.error]
          assignments := pending.map fun i => (i, none)
          realHours := fun _ => 0
          weightedHours := fun _ => 0 }) ∧
    (env.workers ≠ [] → pending = [] →
      (assign_shifts_fairly env pending rng0).success = true ∧
      (assign_shifts_fairly env pending rng0).assignments = [] ∧
      (assign_shifts_fairly env pending rng0).messages = [Sev.info]) := by
  constructor
  · intro h
    simp [assign_shifts_fairly, h]
  · intro hw hp
    have h1 : env.workers.isEmpty = false := by
      simpa [List.isEmpty_iff] using hw
    simp [assign_shifts_fairly, h1, hp]

/-- Claim C5 (witness): both degenerate branches at concrete inputs. -/
theorem C5_degenerate_inputs_witness :
    ((assign_shifts_fairly ⟨[], [], [], 1 / 2, []⟩ [4] 0).success = false ∧
      (assign_shifts_fairly ⟨[], [], [], 1 / 2, []⟩ [4] 0).messages = [Sev.error]) ∧
    ((assign_shifts_fairly ⟨[], [], [], 1 / 2, [⟨1, none, [], []⟩]⟩ [] 0).success = true ∧
      (assign_shifts_fairly ⟨[], [], [], 1 / 2, [⟨1, none, [], []⟩]⟩ [] 0).messages =
        [Sev.info]) := by
  constructor
  · have h := (C5_degenerate_inputs ⟨[], [], [], 1 / 2, []⟩ [4] 0).1 rfl
    rw [h]
    exact ⟨rfl, rfl⟩
  · have h := (C5_degenerate_inputs ⟨[], [], [], 1 / 2, [⟨1, none, [], []⟩]⟩ [] 0).2
      (by simp) rfl
    exact ⟨h.1, h.2.2⟩

/-- Claim C9: the run is a pure function of the inputs and the caller-supplied
seed — two runs over identical inputs with the same seed produce identical
assignments (all tie-breaking randomness is drawn from the seed-built
generator threaded through the engine). -/
theorem C9_reproducibility (env : Env) (pending : List ℕ) (seed1 seed2 : ℕ)
    (h : seed1 = seed2) :
    (run_with_seed env pending seed1).assignments =
      (run_with_seed env pending seed2).assignments := by
  subst h
  rfl

/-- Claim C9 (witness): reproducibility at a concrete seed. -/
theorem C9_reproducibility_witness :
    (run_with_seed ⟨[], [], [], 1 / 2, []⟩ [3] 42).assignments =
      (run_with_seed ⟨[], [], [], 1 / 2, []⟩ [3] 42).assignments :=
  C9_reproducibility ⟨[], [], [], 1 / 2, []⟩ [3] 42 42 rfl

/-- Step equation: a pending assignment whose slot definition is missing is
recorded unassigned with a warning. -/
theorem processOne_of_none (env : Env) (st : AlgoState) (pid : ℕ)
    (hfind : findSlotDef env pid = none) :
    processOne env st pid =
      { st with
          assignments := st.assignments ++ [(pid, none)]
          messages := st.messages ++ [Sev.warning]
          unassigned := st.unassigned + 1 } := by
  unfold processOne
  rw [hfind]

/-- Step equation: a slot with no eligible worker is recorded unassigned with
a warning, advancing only the tie-break generator. -/
theorem processOne_of_sort_nil (env : Env) (st : AlgoState) (pid : ℕ)
    (sd : ShiftDefinition) (hfind : findSlotDef env pid = some sd)
    (hsort : ((eligibleWorkers env st sd (durationHours sd)).zip
        (rngDraws (eligibleWorkers env st sd (durationHours sd)).length st.rng).1).mergeSort
        scoreKeyLe = []) :
    processOne env st pid =
      { st with
          assignments := st.assignments ++ [(pid, none)]
          messages := st.messages ++ [Sev.warning]
          unassigned := st.unassigned + 1
          rng := (rngDraws (eligibleWorkers env st sd (durationHours sd)).length st.rng).2 } := by
  unfold processOne
  rw [hfind]
  simp only [hsort]

/-- Step equation: the slot is assigned to the worker at the front of the
sorted eligible list, and all ledgers are updated for that worker. -/
theorem processOne_of_sort_cons (env : Env) (st : AlgoState) (pid : ℕ)
    (sd : ShiftDefinition) (wid : ℕ) (q : ℚ) (d : ℕ)
    (rest : List ((ℕ × ℚ) × ℕ)) (hfind : findSlotDef env pid = some sd)
    (hsort : ((eligibleWorkers env st sd (durationHours sd)).zip
        (rngDraws (eligibleWorkers env st sd (durationHours sd)).length st.rng).1).mergeSort
        scoreKeyLe = ((wid, q), d) :: rest) :
    processOne env st pid =
      { st with
          assignments := st.assignments ++ [(pid, some wid)]
          realHours := fun i =>
            if i = wid then st.realHours i + durationHours sd else st.realHours i
          weightedHours := fun i =>
            if i = wid then
              st.weightedHours i + durationHours sd *
                get_worker_individual_difficulty env.roles env.ratings wid
                  sd.job_role_id env.alpha
            else st.weightedHours i
          assignedSlots := fun i =>
            if i = wid then st.assignedSlots i ++ [sd] else st.assignedSlots i
          recent := st.recent ++ [(wid, dateOf sd.slot_start_datetime, sd.job_role_id)]
          rng := (rngDraws (eligibleWorkers env st sd (durationHours sd)).length st.rng).2 } := by
  unfold processOne
  rw [hfind]
  simp only [hsort]

/-- Generic preservation of an invariant along the engine fold. -/
theorem foldl_invariant {σ α : Type _} (f : σ → α → σ) (P : σ → Prop)
    (l : List α) (s : σ) (h0 : P s) (hstep : ∀ t a, P t → P (f t a)) :
    P (l.foldl f s) := by
  induction l generalizing s with
  | nil => exact h0
  | cons x xs ih => exact ih _ (hstep _ _ h0)

/-- Overlap of two slot intervals is symmetric. -/
theorem slotsOverlap_comm (a b : ShiftDefinition) :
    slotsOverlap a b = slotsOverlap b a := by
  simp only [slotsOverlap]
  rw [Nat.max_comm, Nat.min_comm]

/-- An eligible worker has no overlap with any shift already assigned to them
in this run. -/
theorem eligibleFor_no_overlap {env : Env} {st : AlgoState}
    {sd : ShiftDefinition} {dur : ℚ} {w : Worker}
    (h : eligibleFor env st sd dur w = true) :
    ∀ o ∈ st.assignedSlots w.id, slotsOverlap sd o = false := by
  simp only [eligibleFor, Bool.and_eq_true, Bool.not_eq_true',
    List.any_eq_false] at h
  intro o ho
  simpa using h.1.2 o ho

/-- An eligible worker passes the max-hours gate. -/
theorem eligibleFor_maxHours {env : Env} {st : AlgoState}
    {sd : ShiftDefinition} {dur : ℚ} {w : Worker}
    (h : eligibleFor env st sd dur w = true) :
    maxHoursOk w (st.realHours w.id) dur = true := by
  simp only [eligibleFor, Bool.and_eq_true] at h
  exact h.2

/-- The worker at the front of the sorted eligible list is an eligible member
of the worker list. -/
theorem chosen_mem (env : Env) (st : AlgoState) (sd : ShiftDefinition)
    (dur : ℚ) {wid : ℕ} {q : ℚ} {d : ℕ} {rest : List ((ℕ × ℚ) × ℕ)}
    {draws : List ℕ}
    (h : ((eligibleWorkers env st sd dur).zip draws).mergeSort scoreKeyLe =
      ((wid, q), d) :: rest) :
    ∃ w ∈ env.workers, w.id = wid ∧ eligibleFor env st sd dur w = true := by
  have hp : ((wid, q), d) ∈
      ((eligibleWorkers env st sd dur).zip draws).mergeSort scoreKeyLe := by
    rw [h]
    exact List.mem_cons_self _ _
  rw [List.mem_mergeSort] at hp
  have hmem : (wid, q) ∈ eligibleWorkers env st sd dur := (List.of_mem_zip hp).1
  rw [eligibleWorkers, List.mem_filterMap] at hmem
  obtain ⟨w, hw, heq⟩ := hmem
  by_cases he : eligibleFor env st sd dur w
  · rw [if_pos he] at heq
    refine ⟨w, hw, ?_, he⟩
    exact congrArg Prod.fst (Option.some.inj heq)
  · rw [if_neg he] at heq
    exact absurd heq (by simp)

/-- The slots that an assignment list gives to worker `wid`, resolved through
the slot-definition table. -/
def assignedSlotsOf (env : Env) (asgn : List (ℕ × Option ℕ)) (wid : ℕ) :
    List ShiftDefinition :=
  asgn.filterMap fun p =>
    match p.2 with
    | some w => if w = wid then findSlotDef env p.1 else none
    | none => none

/-- `assignedSlotsOf` distributes over appending assignment lists. -/
theorem assignedSlotsOf_append (env : Env) (l1 l2 : List (ℕ × Option ℕ))
    (wid : ℕ) :
    assignedSlotsOf env (l1 ++ l2) wid =
      assignedSlotsOf env l1 wid ++ assignedSlotsOf env l2 wid :=
  List.filterMap_append _ _ _

/-- A fully unassigned list resolves to no slots for any worker. -/
theorem assignedSlotsOf_all_none (env : Env) (l : List ℕ) (wid : ℕ) :
    assignedSlotsOf env (l.map fun i => (i, none)) wid = [] := by
  simp [assignedSlotsOf, List.filterMap_map, Function.comp_def]

/-- The bookkeeping invariant: the assignment list resolves to exactly the
per-worker assigned slots, and those are pairwise non-overlapping. -/
def BookOk (env : Env) (st : AlgoState) : Prop :=
  (∀ w, assignedSlotsOf env st.assignments w = st.assignedSlots w) ∧
  (∀ w, List.Pairwise (fun a b => slotsOverlap a b = false) (st.assignedSlots w))

/-- Each engine step preserves the bookkeeping invariant. -/
theorem processOne_book (env : Env) (st : AlgoState) (pid : ℕ)
    (h : BookOk env st) : BookOk env (processOne env st pid) := by
  obtain ⟨h1, h2⟩ := h
  rcases hfind : findSlotDef env pid with _ | sd
  · rw [processOne_of_none env st pid hfind]
    refine ⟨fun w => ?_, h2⟩
    rw [assignedSlotsOf_append, h1]
    simp [assignedSlotsOf]
  · rcases hsort : ((eligibleWorkers env st sd (durationHours sd)).zip
        (rngDraws (eligibleWorkers env st sd (durationHours sd)).length st.rng).1).mergeSort
        scoreKeyLe with _ | ⟨⟨⟨wid, q⟩, d⟩, rest⟩
    · rw [processOne_of_sort_nil env st pid sd hfind hsort]
      refine ⟨fun w => ?_, h2⟩
      rw [assignedSlotsOf_append, h1]
      simp [assignedSlotsOf]
    · obtain ⟨w, hwmem, hwid, helig⟩ := chosen_mem env st sd (durationHours sd) hsort
      rw [processOne_of_sort_cons env st pid sd wid q d rest hfind hsort]
      constructor
      · intro w'
        simp only
        rw [assignedSlotsOf_append, h1]
        by_cases hw' : w' = wid
        · subst hw'
          simp [assignedSlotsOf, hfind]
        · have hne : ¬ wid = w' := fun hh => hw' hh.symm
          simp [assignedSlotsOf, hne, hw']
      · intro w'
        simp only
        by_cases hw' : w' = wid
        · subst hw'
          rw [if_pos rfl, List.pairwise_append]
          refine ⟨h2 w', List.pairwise_singleton _ _, ?_⟩
          intro a ha b hb
          rw [List.mem_singleton] at hb
          subst hb
          rw [slotsOverlap_comm]
          have := eligibleFor_no_overlap helig
          rw [hwid] at this
          exact this a ha
        · rw [if_neg hw']
          exact h2 w'

/-- Claim C3: in every engine run, no worker is double-booked — the slots a
worker receives in the produced assignment list are pairwise non-overlapping
in `[startDatetime, endDatetime)`. -/
theorem C3_no_double_booking (env : Env) (pending : List ℕ) (rng0 : ℕ)
    (wid : ℕ) :
    List.Pairwise (fun a b => slotsOverlap a b = false)
      (assignedSlotsOf env (assign_shifts_fairly env pending rng0).assignments wid) := by
  unfold assign_shifts_fairly
  by_cases hw : env.workers.isEmpty
  · rw [if_pos hw]
    rw [assignedSlotsOf_all_none]
    exact List.Pairwise.nil
  · rw [if_neg hw]
    by_cases hp : pending.isEmpty
    · rw [if_pos hp]
      exact List.Pairwise.nil
    · rw [if_neg hp]
      have hinv : BookOk env
          ((sort_pending env pending).foldl (processOne env) (initState rng0)) := by
        refine foldl_invariant _ (BookOk env) _ _ ⟨fun w => rfl, fun w => List.Pairwise.nil⟩ ?_
        intro t a ht
        exact processOne_book env t a ht
      obtain ⟨g1, g2⟩ := hinv
      simp only
      rw [g1 wid]
      exact g2 wid

/-- If the cap of a worker is set to a non-zero value, passing the max-hours gate
means the accumulated hours plus the slot duration stay within the cap. -/
theorem maxHoursOk_some_ne_zero {w : Worker} {c : ℤ}
    (hc : w.max_hours_per_week = some c) (hne : c ≠ 0) {real dur : ℚ}
    (h : maxHoursOk w real dur = true) : real + dur ≤ (c : ℚ) := by
  simp only [maxHoursOk, hc] at h
  rw [if_neg hne] at h
  simpa using h

/-- A concrete run for refuting claim C4 as stated: one worker whose
`max_hours_per_week` is set to 0, qualified for the single one-hour slot. -/
def env4 : Env :=
  ⟨[⟨1, 0, 60, 1, 1⟩], [⟨1, 1⟩], [], 1 / 2, [⟨0, some 0, [1], []⟩]⟩

/-- Claim C4 (counterexample): the worker whose cap is set to 0 is assigned
the one-hour slot anyway, so their total real hours (1) exceed their set
`maxHoursPerPeriod` (0) — a cap that is set but zero does not bound the run. -/
theorem C4_counterexample :
    (assign_shifts_fairly env4 [1] 0).realHours 0 = 1 ∧
      ¬ ((1 : ℚ) ≤ ((0 : ℤ) : ℚ)) := by
  constructor
  · norm_num [assign_shifts_fairly, env4, sort_pending, processOne, initState,
      eligibleWorkers, eligibleFor, is_worker_available_for_slot,
      is_worker_qualified_for_slot, findRole, findSlotDef, maxHoursOk,
      constraintOverlaps, get_recent_role_penalty, workerInRecent,
      durationHours, rngDraws, rngNext, List.filterMap_cons, List.filterMap_nil,
      List.zip_cons_cons, List.mergeSort_singleton]
  · norm_num

/-- Claim C4 (amended): for every worker whose `maxHoursPerPeriod` is set to
a positive value, eligibility requires accumulated real hours plus the slot
duration to stay within the cap, and consequently the total real hours
assigned to that worker over the whole run never exceed the cap.  (The claim
as stated fails when the cap is set to 0: Python truthiness skips the check,
see the counterexample.) -/
theorem C4_max_hours (env : Env) (pending : List ℕ) (rng0 : ℕ) (wid : ℕ)
    (c : ℤ) (hpos : 0 < c)
    (huniq : ∀ w ∈ env.workers, w.id = wid → w.max_hours_per_week = some c) :
    (∀ (st : AlgoState) (sd : ShiftDefinition) (dur : ℚ) (w : Worker),
      w.max_hours_per_week = some c → eligibleFor env st sd dur w = true →
      st.realHours w.id + dur ≤ (c : ℚ)) ∧
    (assign_shifts_fairly env pending rng0).realHours wid ≤ (c : ℚ) := by
  have hc0 : (0 : ℚ) ≤ (c : ℚ) := by exact_mod_cast le_of_lt hpos
  constructor
  · intro st sd dur w hcap helig
    exact maxHoursOk_some_ne_zero hcap (by omega) (eligibleFor_maxHours helig)
  · unfold assign_shifts_fairly
    by_cases hw : env.workers.isEmpty
    · rw [if_pos hw]
      exact hc0
    · rw [if_neg hw]
      by_cases hp : pending.isEmpty
      · rw [if_pos hp]
        exact hc0
      · rw [if_neg hp]
        simp only
        refine foldl_invariant _ (fun st : AlgoState => st.realHours wid ≤ (c : ℚ)) _ _ hc0 ?_
        intro st pid hst
        rcases hfind : findSlotDef env pid with _ | sd
        · rw [processOne_of_none env st pid hfind]
          exact hst
        · rcases hsort : ((eligibleWorkers env st sd (durationHours sd)).zip
              (rngDraws (eligibleWorkers env st sd (durationHours sd)).length st.rng).1).mergeSort
              scoreKeyLe with _ | ⟨⟨⟨wid', q⟩, d⟩, rest⟩
          · rw [processOne_of_sort_nil env st pid sd hfind hsort]
            exact hst
          · obtain ⟨w, hwmem, hwid, helig⟩ := chosen_mem env st sd (durationHours sd) hsort
            rw [processOne_of_sort_cons env st pid sd wid' q d rest hfind hsort]
            simp only
            by_cases hw' : wid = wid'
            · rw [if_pos hw']
              have hcap : w.max_hours_per_week = some c :=
                huniq w hwmem (by rw [hwid, hw'])
              have := maxHoursOk_some_ne_zero hcap (by omega)
                (eligibleFor_maxHours helig)
              rw [hwid, ← hw'] at this
              exact this
            · rw [if_neg hw']
              exact hst

/-- Claim C4 (witness): a worker with a positive cap of 40 hours stays within
it on a concrete run. -/
theorem C4_max_hours_witness :
    (assign_shifts_fairly
        ⟨[⟨1, 0, 60, 1, 1⟩], [⟨1, 1⟩], [], 1 / 2, [⟨0, some 40, [1], []⟩]⟩
        [1] 0).realHours 0 ≤ ((40 : ℤ) : ℚ) :=
  (C4_max_hours ⟨[⟨1, 0, 60, 1, 1⟩], [⟨1, 1⟩], [], 1 / 2, [⟨0, some 40, [1], []⟩]⟩
    [1] 0 0 40 (by norm_num)
    (by
      intro w hw _
      rw [List.mem_singleton] at hw
      subst hw
      rfl)).2

/-- Replace a cap that is set to 0 by an unset cap, leaving every other
worker field unchanged. -/
def zeroCapToNone (w : Worker) : Worker :=
  if w.max_hours_per_week = some 0 then
    { w with max_hours_per_week := none }
  else w

/-- `zeroCapToNone` preserves the worker id. -/
theorem zeroCapToNone_id (w : Worker) : (zeroCapToNone w).id = w.id := by
  unfold zeroCapToNone
  split <;> rfl

/-- `zeroCapToNone` preserves the qualified role ids. -/
theorem zeroCapToNone_qual (w : Worker) :
    (zeroCapToNone w).qualified_role_ids = w.qualified_role_ids := by
  unfold zeroCapToNone
  split <;> rfl

/-- `zeroCapToNone` preserves the unavailability constraints. -/
theorem zeroCapToNone_constraints (w : Worker) :
    (zeroCapToNone w).constraints = w.constraints := by
  unfold zeroCapToNone
  split <;> rfl

/-- The max-hours gate cannot distinguish a cap of 0 from an unset cap. -/
theorem maxHoursOk_zeroCap (w : Worker) (real dur : ℚ) :
    maxHoursOk (zeroCapToNone w) real dur = maxHoursOk w real dur := by
  unfold zeroCapToNone
  by_cases h : w.max_hours_per_week = some 0
  · rw [if_pos h]
    simp [maxHoursOk, h]
  · rw [if_neg h]

/-- Eligibility is unchanged when a zero cap is replaced by an unset cap. -/
theorem eligibleFor_zeroCap (env : Env) (st : AlgoState) (sd : ShiftDefinition)
    (dur : ℚ) (w : Worker) :
    eligibleFor { env with workers := env.workers.map zeroCapToNone } st sd dur
        (zeroCapToNone w) = eligibleFor env st sd dur w := by
  unfold eligibleFor is_worker_available_for_slot is_worker_qualified_for_slot
  rw [zeroCapToNone_id, zeroCapToNone_qual, zeroCapToNone_constraints,
    maxHoursOk_zeroCap]

/-- The eligible-worker list is unchanged when zero caps are replaced by
unset caps across the worker list. -/
theorem eligibleWorkers_zeroCap (env : Env) (st : AlgoState)
    (sd : ShiftDefinition) (dur : ℚ) :
    eligibleWorkers { env with workers := env.workers.map zeroCapToNone } st sd dur =
      eligibleWorkers env st sd dur := by
  unfold eligibleWorkers
  simp only
  rw [List.filterMap_map]
  apply List.filterMap_congr
  intro w _
  simp only [Function.comp_apply]
  rw [eligibleFor_zeroCap, zeroCapToNone_id]

/-- Each engine step is unchanged when zero caps are replaced by unset caps. -/
theorem processOne_zeroCap (env : Env) (st : AlgoState) (pid : ℕ) :
    processOne { env with workers := env.workers.map zeroCapToNone } st pid =
      processOne env st pid := by
  have hfind : findSlotDef { env with workers := env.workers.map zeroCapToNone } =
      findSlotDef env := rfl
  simp only [processOne, eligibleWorkers_zeroCap, hfind]

/-- Claim C10: a `maxHoursPerPeriod` of 0 is treated exactly like an unset
cap — the max-hours gate always passes for such a worker, and replacing every
zero cap by an unset cap leaves the whole engine run unchanged (so the cap
only restricts eligibility when non-zero). -/
theorem C10_zero_cap (env : Env) (pending : List ℕ) (rng0 : ℕ) :
    (∀ (w : Worker) (real dur : ℚ), w.max_hours_per_week = some 0 →
      maxHoursOk w real dur = true) ∧
    assign_shifts_fairly { env with workers := env.workers.map zeroCapToNone }
        pending rng0 = assign_shifts_fairly env pending rng0 := by
  constructor
  · intro w real dur h
    simp [maxHoursOk, h]
  · have hproc : processOne { env with workers := env.workers.map zeroCapToNone } =
        processOne env :=
      funext fun st => funext fun pid => processOne_zeroCap env st pid
    have hempty : (env.workers.map zeroCapToNone).isEmpty = env.workers.isEmpty := by
      cases env.workers <;> rfl
    unfold assign_shifts_fairly
    simp only [hempty, hproc]
    rfl

/-- Claim C10 (witness): the gate passes for a concrete zero-cap worker, and
the concrete counterexample run is unchanged under replacing the zero cap. -/
theorem C10_zero_cap_witness :
    maxHoursOk ⟨0, some 0, [1], []⟩ 5 3 = true ∧
    assign_shifts_fairly { env4 with workers := env4.workers.map zeroCapToNone }
        [1] 0 = assign_shifts_fairly env4 [1] 0 :=
  ⟨(C10_zero_cap env4 [1] 0).1 ⟨0, some 0, [1], []⟩ 5 3 rfl,
    (C10_zero_cap env4 [1] 0).2⟩

/-- Each engine step appends exactly one processed assignment. -/
theorem processOne_assignments_shape (env : Env) (st : AlgoState) (pid : ℕ) :
    ∃ ow, (processOne env st pid).assignments = st.assignments ++ [(pid, ow)] := by
  rcases hfind : findSlotDef env pid with _ | sd
  · exact ⟨none, by rw [processOne_of_none env st pid hfind]⟩
  · rcases hsort : ((eligibleWorkers env st sd (durationHours sd)).zip
        (rngDraws (eligibleWorkers env st sd (durationHours sd)).length st.rng).1).mergeSort
        scoreKeyLe with _ | ⟨⟨⟨wid, q⟩, d⟩, rest⟩
    · exact ⟨none, by rw [processOne_of_sort_nil env st pid sd hfind hsort]⟩
    · exact ⟨some wid, by rw [processOne_of_sort_cons env st pid sd wid q d rest hfind hsort]⟩

/-- Each engine step only appends to the diagnostics list. -/
theorem processOne_messages_shape (env : Env) (st : AlgoState) (pid : ℕ) :
    ∃ ms, (processOne env st pid).messages = st.messages ++ ms := by
  rcases hfind : findSlotDef env pid with _ | sd
  · exact ⟨[Sev.warning], by rw [processOne_of_none env st pid hfind]⟩
  · rcases hsort : ((eligibleWorkers env st sd (durationHours sd)).zip
        (rngDraws (eligibleWorkers env st sd (durationHours sd)).length st.rng).1).mergeSort
        scoreKeyLe with _ | ⟨⟨⟨wid, q⟩, d⟩, rest⟩
    · exact ⟨[Sev.warning], by rw [processOne_of_sort_nil env st pid sd hfind hsort]⟩
    · exact ⟨[], by rw [processOne_of_sort_cons env st pid sd wid q d rest hfind hsort]; simp⟩

/-- The fold processes every pending assignment: one output entry per input. -/
theorem foldl_assignments_length (env : Env) (l : List ℕ) (st : AlgoState) :
    ((l.foldl (processOne env) st).assignments).length =
      st.assignments.length + l.length := by
  induction l generalizing st with
  | nil => simp
  | cons x xs ih =>
    rw [List.foldl_cons, ih]
    obtain ⟨ow, h⟩ := processOne_assignments_shape env st x
    rw [h]
    simp
    omega

/-- Processed assignments survive the rest of the fold. -/
theorem foldl_assignments_mem (env : Env) (l : List ℕ) (st : AlgoState)
    {p : ℕ × Option ℕ} (hp : p ∈ st.assignments) :
    p ∈ (l.foldl (processOne env) st).assignments := by
  induction l generalizing st with
  | nil => exact hp
  | cons x xs ih =>
    rw [List.foldl_cons]
    apply ih
    obtain ⟨ow, h⟩ := processOne_assignments_shape env st x
    rw [h]
    exact List.mem_append_left _ hp

/-- Emitted diagnostics survive the rest of the fold. -/
theorem foldl_messages_mem (env : Env) (l : List ℕ) (st : AlgoState)
    {m : Sev} (hm : m ∈ st.messages) :
    m ∈ (l.foldl (processOne env) st).messages := by
  induction l generalizing st with
  | nil => exact hm
  | cons x xs ih =>
    rw [List.foldl_cons]
    apply ih
    obtain ⟨ms, h⟩ := processOne_messages_shape env st x
    rw [h]
    exact List.mem_append_left _ hm

/-- A pending assignment with a missing slot definition ends up recorded
unassigned, with a warning diagnostic emitted. -/
theorem foldl_missing_def (env : Env) (l : List ℕ) (st : AlgoState) {pid : ℕ}
    (hpid : pid ∈ l) (hfind : findSlotDef env pid = none) :
    (pid, (none : Option ℕ)) ∈ (l.foldl (processOne env) st).assignments ∧
      Sev.warning ∈ (l.foldl (processOne env) st).messages := by
  induction l generalizing st with
  | nil => cases hpid
  | cons x xs ih =>
    rcases List.mem_cons.mp hpid with rfl | hmem
    · rw [List.foldl_cons]
      constructor
      · apply foldl_assignments_mem
        rw [processOne_of_none env st pid hfind]
        simp
      · apply foldl_messages_mem
        rw [processOne_of_none env st pid hfind]
        simp
    · exact ih (processOne env st x) hmem

/-- A concrete run for claim C8: one worker, and a pending assignment whose
slot id 5 resolves to no slot definition. -/
def env8 : Env := ⟨[], [], [], 1 / 2, [⟨0, none, [], []⟩]⟩

/-- Claim C8 (counterexample): when the slot definition of the pending assignment
is missing, the emitted diagnostics are a `warning` for the slot plus the
final summary `info` — no `error` severity diagnostic is emitted, contrary to
the claim. -/
theorem C8_counterexample :
    (assign_shifts_fairly env8 [5] 0).messages = [Sev.warning, Sev.info] ∧
      Sev.error ∉ (assign_shifts_fairly env8 [5] 0).messages := by
  have h : (assign_shifts_fairly env8 [5] 0).messages = [Sev.warning, Sev.info] := by
    norm_num [assign_shifts_fairly, env8, sort_pending, processOne, initState,
      findSlotDef]
  refine ⟨h, ?_⟩
  rw [h]
  decide

/-- Claim C8 (amended): when a pending assignment references a missing slot
definition, that slot is counted as unassigned, a diagnostic of severity
warning (not error) is emitted for it, and the run continues processing all
other slots — every pending assignment still yields exactly one output
entry. -/
theorem C8_missing_definition (env : Env) (pending : List ℕ) (rng0 : ℕ)
    (pid : ℕ) (hw : env.workers ≠ []) (hpid : pid ∈ pending)
    (hfind : findSlotDef env pid = none) :
    (pid, (none : Option ℕ)) ∈ (assign_shifts_fairly env pending rng0).assignments ∧
    Sev.warning ∈ (assign_shifts_fairly env pending rng0).messages ∧
    (assign_shifts_fairly env pending rng0).assignments.length = pending.length := by
  have hwempty : env.workers.isEmpty = false := by
    simpa [List.isEmpty_iff] using hw
  have hpempty : pending.isEmpty = false := by
    cases pending with
    | nil => cases hpid
    | cons a l => rfl
  unfold assign_shifts_fairly
  rw [hwempty, hpempty]
  simp only [Bool.false_eq_true, if_false]
  have hmem : pid ∈ sort_pending env pending := by
    rw [sort_pending, List.mem_mergeSort]
    exact hpid
  obtain ⟨ha, hm⟩ := foldl_missing_def env (sort_pending env pending)
    (initState rng0) hmem hfind
  refine ⟨ha, List.mem_append_left _ hm, ?_⟩
  rw [foldl_assignments_length]
  simp [initState, sort_pending, (List.mergeSort_perm pending (startKeyLe env)).length_eq]

/-- Claim C8 (witness): the amended behavior on the concrete missing-slot
run. -/
theorem C8_missing_definition_witness :
    (5, (none : Option ℕ)) ∈ (assign_shifts_fairly env8 [5] 0).assignments ∧
    Sev.warning ∈ (assign_shifts_fairly env8 [5] 0).messages ∧
    (assign_shifts_fairly env8 [5] 0).assignments.length = [5].length :=
  C8_missing_definition env8 [5] 0 5 (by simp [env8]) (by simp) rfl

/-- The pending-sort comparison is transitive. -/
theorem startKeyLe_trans (env : Env) (a b c : ℕ)
    (h1 : startKeyLe env a b = true) (h2 : startKeyLe env b c = true) :
    startKeyLe env a c = true := by
  unfold startKeyLe at *
  rcases ha : findSlotDef env a with _ | x <;>
    rcases hb : findSlotDef env b with _ | y <;>
      rcases hc : findSlotDef env c with _ | z <;>
        simp_all <;> omega

/-- The pending-sort comparison is total. -/
theorem startKeyLe_total (env : Env) (a b : ℕ) :
    (startKeyLe env a b || startKeyLe env b a) = true := by
  unfold startKeyLe
  rcases ha : findSlotDef env a with _ | x <;>
    rcases hb : findSlotDef env b with _ | y <;>
      simp_all <;> omega

/-- The processed assignments come out in exactly the order the fold consumed
the pending ids. -/
theorem foldl_assignments_map_fst (env : Env) (l : List ℕ) (st : AlgoState) :
    ((l.foldl (processOne env) st).assignments).map Prod.fst =
      st.assignments.map Prod.fst ++ l := by
  induction l generalizing st with
  | nil => simp
  | cons x xs ih =>
    rw [List.foldl_cons, ih]
    obtain ⟨ow, h⟩ := processOne_assignments_shape env st x
    rw [h]
    simp

/-- A concrete environment for refuting claim C6: two slots with equal start
times whose role ids are in reverse numeric order (slot id 1 has role 2,
slot id 2 has role 1). -/
def env6 : Env :=
  ⟨[⟨1, 100, 200, 1, 2⟩, ⟨2, 100, 200, 1, 1⟩], [], [], 1 / 2, []⟩

/-- Claim C6 (counterexample): with two equal-start slots the engine sort
keeps whatever input order the pending list had — it does not reorder by role
id and then instance index.  Slot 1 (role 2) stays ahead of slot 2 (role 1)
when the input is `[1, 2]`, and the reverse input stays reversed, so the tie
order is input-dependent and not the claimed `[2, 1]`. -/
theorem C6_counterexample :
    sort_pending env6 [1, 2] = [1, 2] ∧
    sort_pending env6 [2, 1] = [2, 1] ∧
    (findSlotDef env6 1).map ShiftDefinition.slot_start_datetime =
      (findSlotDef env6 2).map ShiftDefinition.slot_start_datetime ∧
    (findSlotDef env6 1).map ShiftDefinition.job_role_id = some 2 ∧
    (findSlotDef env6 2).map ShiftDefinition.job_role_id = some 1 ∧
    sort_pending env6 [1, 2] ≠ [2, 1] := by
  have h1 : sort_pending env6 [1, 2] = [1, 2] := by
    rw [sort_pending]
    exact List.mergeSort_of_sorted (by decide)
  have h2 : sort_pending env6 [2, 1] = [2, 1] := by
    rw [sort_pending]
    exact List.mergeSort_of_sorted (by decide)
  refine ⟨h1, h2, rfl, rfl, rfl, ?_⟩
  rw [h1]
  decide

/-- Claim C6 (amended): the engine sorts the pending list ascending by slot
start time with a stable sort — the result is a permutation of the input,
pairwise ordered by start time, ties keeping their input order (rather than
being reordered by role id and instance index) — and, whenever the engine
actually runs, it processes and emits assignments in exactly that order. -/
theorem C6_stable_sort (env : Env) (pending : List ℕ) (rng0 : ℕ) :
    List.Pairwise (fun a b => startKeyLe env a b = true) (sort_pending env pending) ∧
    (sort_pending env pending).Perm pending ∧
    (∀ a b : ℕ, startKeyLe env a b = true → [a, b].Sublist pending →
      [a, b].Sublist (sort_pending env pending)) ∧
    (env.workers ≠ [] →
      (assign_shifts_fairly env pending rng0).assignments.map Prod.fst =
        sort_pending env pending) := by
  refine ⟨List.sorted_mergeSort (startKeyLe_trans env) (startKeyLe_total env) pending,
    List.mergeSort_perm pending (startKeyLe env), ?_, ?_⟩
  · intro a b hab hsub
    refine List.sublist_mergeSort (startKeyLe_trans env) (startKeyLe_total env) ?_ hsub
    refine List.pairwise_cons.mpr ⟨?_, List.pairwise_singleton _ _⟩
    intro y hy
    rw [List.mem_singleton] at hy
    subst hy
    exact hab
  · intro hw
    have hwempty : env.workers.isEmpty = false := by
      simpa [List.isEmpty_iff] using hw
    unfold assign_shifts_fairly
    rw [hwempty]
    simp only [Bool.false_eq_true, if_false]
    by_cases hp : pending.isEmpty
    · rw [if_pos hp]
      rw [List.isEmpty_iff] at hp
      subst hp
      simp [sort_pending]
    · rw [if_neg hp]
      simp only
      rw [foldl_assignments_map_fst]
      simp [initState]

/-- Claim C6 (witness): the stability and engine-order conclusions at
concrete inputs. -/
theorem C6_stable_sort_witness :
    ([1, 2].Sublist (sort_pending env6 [1, 2])) ∧
    (assign_shifts_fairly env8 [5] 0).assignments.map Prod.fst =
      sort_pending env8 [5] := by
  constructor
  · exact (C6_stable_sort env6 [1, 2] 0).2.2.1 1 2 (by decide)
      (List.Sublist.refl [1, 2])
  · exact (C6_stable_sort env8 [5] 0).2.2.2 (by simp [env8])

/-- The start of the calendar day containing minute `t`
(`current_time.replace(hour=0, minute=0, …)`). -/
def dayStart (t : ℕ) : ℕ := t / 1440 * 1440

/-- The wall-clock time of minute `t`, in minutes within its day. -/
def clockTime (t : ℕ) : ℕ := t % 1440

/-- The working-hour window of a role (`work_start_time`, `work_end_time`,
`is_overnight_shift` from the `JobRole` model), with the two times as minutes
within a day. -/
structure RoleWindow where
  work_start_time : ℕ
  work_end_time : ℕ
  is_overnight_shift : Bool
deriving DecidableEq

/-- The slot-generation view of a `JobRole`: headcount, duration and the
optional working-hour window (`has_time_restrictions` is true exactly when
both times are set, modelled by `window` being `some`).  The duration is the
duration of the role, `get_duration_timedelta()`, in minutes. -/
structure GenRole where
  number_needed : ℕ
  durationMinutes : ℕ
  window : Option RoleWindow
deriving DecidableEq

/-- One generated coverage slot (`ShiftDefinition` as created by the slot
generation loop of `generate_slots_and_assign_action`). -/
structure GenSlot where
  slot_start : ℕ
  slot_end : ℕ
  instance_number : ℕ
deriving DecidableEq

/-- Clock-time membership in a window: wrapped (`time ≥ start or time < end`)
for overnight windows, `start ≤ time < end` otherwise. -/
def timeWithin (w : RoleWindow) (t : ℕ) : Bool :=
  if w.is_overnight_shift then
    decide (clockTime t ≥ w.work_start_time) || decide (clockTime t < w.work_end_time)
  else
    decide (w.work_start_time ≤ clockTime t) && decide (clockTime t < w.work_end_time)

/-- `is_time_within_role_restrictions(check_time, role)` from `app/routes.py`. -/
def is_time_within_role_restrictions (r : GenRole) (t : ℕ) : Bool :=
  match r.window with
  | none => true
  | some w => timeWithin w t

/-- `get_next_valid_start_time(current_time, role, period_end)` from
`app/routes.py`. -/
def get_next_valid_start_time (r : GenRole) (t periodEnd : ℕ) : ℕ :=
  match r.window with
  | none => t + 30
  | some w =>
    if w.is_overnight_shift then
      min
        (if clockTime t ≥ w.work_start_time then
          dayStart t + w.work_start_time + 1440
        else if clockTime t < w.work_end_time then
          dayStart t + w.work_start_time
        else
          dayStart t + w.work_start_time)
        periodEnd
    else
      if clockTime t < w.work_start_time then
        dayStart t + w.work_start_time
      else
        min (dayStart t + w.work_start_time + 1440) periodEnd

/-- `constrain_slot_to_working_hours(slot_start, slot_end, role)` from
`app/routes.py`: clip the slot end to the end of the current working window
(next-day window end when the slot started at or after the window start of an
overnight window, same-day window end otherwise). -/
def constrain_slot_to_working_hours (r : GenRole) (slot_start slot_end : ℕ) : ℕ :=
  match r.window with
  | none => slot_end
  | some w =>
    if w.is_overnight_shift then
      min slot_end
        (if clockTime slot_start ≥ w.work_start_time then
          dayStart slot_start + w.work_end_time + 1440
        else if clockTime slot_start < w.work_end_time then
          dayStart slot_start + w.work_end_time
        else
          dayStart slot_start + w.work_end_time)
    else
      min slot_end
        (if dayStart slot_start + w.work_end_time ≤ slot_start then
          dayStart slot_start + w.work_end_time + 1440
        else
          dayStart slot_start + w.work_end_time)

/-- The `for i in range(1, role.number_needed + 1)` burst of parallel slot
instances sharing one time interval. -/
def replicateSlots (n start endv : ℕ) : List GenSlot :=
  (List.range n).map fun i => ⟨start, endv, i + 1⟩

/-- The per-role `while current_dt_for_role < period_end and iter_count <
max_iter` slot generation loop of `generate_slots_and_assign_action`, with
the remaining iteration budget as fuel and the running count of consecutive
degenerate slots. -/
def genLoop (r : GenRole) (periodEnd : ℕ) : ℕ → ℕ → ℕ → List GenSlot
  | 0, _, _ => []
  | fuel + 1, cur, consec =>
    if cur ≥ periodEnd then []
    else if is_time_within_role_restrictions r cur = false then
      genLoop r periodEnd fuel (get_next_valid_start_time r cur periodEnd) 0
    else
      let slotEnd :=
        min (constrain_slot_to_working_hours r cur (cur + r.durationMinutes)) periodEnd
      if cur < slotEnd then
        replicateSlots r.number_needed cur slotEnd ++
          genLoop r periodEnd fuel
            (if is_time_within_role_restrictions r (cur + r.durationMinutes) then
              cur + r.durationMinutes
            else
              get_next_valid_start_time r (cur + r.durationMinutes) periodEnd) 0
      else if consec + 1 ≥ 10 then
        genLoop r periodEnd fuel
          (if r.window.isSome then get_next_valid_start_time r (cur + 60) periodEnd
           else cur + 60) 0
      else
        genLoop r periodEnd fuel
          (if r.window.isSome then get_next_valid_start_time r cur periodEnd
           else cur + 30) (consec + 1)

/-- Slot generation for one role over the period: skip zero-duration roles,
snap the cursor to the first valid window start, then run the loop with the
5000-iteration cap as fuel. -/
def generate_slots_for_role (r : GenRole) (periodStart periodEnd : ℕ) :
    List GenSlot :=
  if r.durationMinutes = 0 then []
  else
    genLoop r periodEnd 5000
      (if is_time_within_role_restrictions r periodStart then periodStart
       else get_next_valid_start_time r periodStart periodEnd) 0

/-- A minute in a slot that starts at or after the start of an overnight
window and ends by the next-day window end is inside the wrapped window. -/
theorem timeWithin_overnight_late (w : RoleWindow)
    (hov : w.is_overnight_shift = true) (he : w.work_end_time < 1440)
    (start t : ℕ) (hstart : w.work_start_time ≤ clockTime start)
    (h1 : start ≤ t) (h2 : t < dayStart start + 1440 + w.work_end_time) :
    timeWithin w t = true := by
  simp only [timeWithin, hov, if_true, Bool.or_eq_true, decide_eq_true_eq, ge_iff_le]
  simp only [clockTime, dayStart] at *
  omega

/-- A minute in a slot that starts before the end of an overnight window and
ends by the same-day window end is inside the wrapped window. -/
theorem timeWithin_overnight_early (w : RoleWindow)
    (hov : w.is_overnight_shift = true) (he : w.work_end_time < 1440)
    (start t : ℕ) (hstart : clockTime start < w.work_end_time)
    (h1 : start ≤ t) (h2 : t < dayStart start + w.work_end_time) :
    timeWithin w t = true := by
  simp only [timeWithin, hov, if_true, Bool.or_eq_true, decide_eq_true_eq, ge_iff_le]
  simp only [clockTime, dayStart] at *
  omega

/-- A minute in a slot that starts inside a same-day window and ends by the
same-day window end is inside the window. -/
theorem timeWithin_day (w : RoleWindow) (hov : w.is_overnight_shift = false)
    (he : w.work_end_time < 1440) (start t : ℕ)
    (hs1 : w.work_start_time ≤ clockTime start)
    (hs2 : clockTime start < w.work_end_time)
    (h1 : start ≤ t) (h2 : t < dayStart start + w.work_end_time) :
    timeWithin w t = true := by
  simp only [timeWithin, hov, Bool.false_eq_true, if_false, Bool.and_eq_true,
    decide_eq_true_eq]
  simp only [clockTime, dayStart] at *
  constructor <;> omega

/-- Any interval that starts at a window-valid minute and ends by the
constrained end lies entirely inside the (possibly wrapped) window. -/
theorem constrain_within (r : GenRole) (w : RoleWindow) (hw : r.window = some w)
    (he : w.work_end_time < 1440) (start e endv : ℕ)
    (hstart : is_time_within_role_restrictions r start = true)
    (hend : endv ≤ constrain_slot_to_working_hours r start e) :
    ∀ t, start ≤ t → t < endv → timeWithin w t = true := by
  intro t h1 h2
  simp only [is_time_within_role_restrictions, hw] at hstart
  simp only [constrain_slot_to_working_hours, hw] at hend
  by_cases hov : w.is_overnight_shift
  · rw [if_pos hov] at hend
    by_cases hlate : clockTime start ≥ w.work_start_time
    · rw [if_pos hlate] at hend
      refine timeWithin_overnight_late w hov he start t hlate h1 ?_
      omega
    · rw [if_neg hlate] at hend
      have hearly : clockTime start < w.work_end_time := by
        simp only [timeWithin, hov, if_true, Bool.or_eq_true, decide_eq_true_eq,
          ge_iff_le] at hstart
        rcases hstart with h | h
        · exact absurd h hlate
        · exact h
      rw [if_pos hearly] at hend
      refine timeWithin_overnight_early w hov he start t hearly h1 ?_
      omega
  · rw [if_neg hov] at hend
    rw [Bool.not_eq_true] at hov
    simp only [timeWithin, hov, Bool.false_eq_true, if_false, Bool.and_eq_true,
      decide_eq_true_eq] at hstart
    have hlt : ¬ (dayStart start + w.work_end_time ≤ start) := by
      have h2s := hstart.2
      simp only [clockTime, dayStart] at h2s ⊢
      omega
    rw [if_neg hlt] at hend
    refine timeWithin_day w hov he start t hstart.1 hstart.2 h1 ?_
    omega

/-- Membership in a burst of parallel instances fixes the time interval. -/
theorem mem_replicateSlots {n start endv : ℕ} {s : GenSlot}
    (h : s ∈ replicateSlots n start endv) :
    s.slot_start = start ∧ s.slot_end = endv := by
  simp only [replicateSlots, List.mem_map, List.mem_range] at h
  obtain ⟨i, _, hfi⟩ := h
  rw [← hfi]
  exact ⟨rfl, rfl⟩

/-- Every slot the generation loop emits for a windowed role starts at a
window-valid minute and ends by the constrained window end. -/
theorem genLoop_window (r : GenRole) (w : RoleWindow) (hw : r.window = some w)
    (he : w.work_end_time < 1440) (periodEnd : ℕ) :
    ∀ (fuel cur consec : ℕ), ∀ s ∈ genLoop r periodEnd fuel cur consec,
      (∀ t, s.slot_start ≤ t → t < s.slot_end → timeWithin w t = true) ∧
      s.slot_end ≤ constrain_slot_to_working_hours r s.slot_start
        (s.slot_start + r.durationMinutes) ∧
      timeWithin w s.slot_start = true := by
  intro fuel
  induction fuel with
  | zero =>
    intro cur consec s hs
    simp [genLoop] at hs
  | succ n ih =>
    intro cur consec s hs
    rw [genLoop] at hs
    by_cases h1 : cur ≥ periodEnd
    · rw [if_pos h1] at hs
      cases hs
    · rw [if_neg h1] at hs
      by_cases h2 : is_time_within_role_restrictions r cur = false
      · rw [if_pos h2] at hs
        exact ih _ _ s hs
      · rw [if_neg h2] at hs
        rw [Bool.not_eq_false] at h2
        simp only at hs
        by_cases h3 : cur <
            min (constrain_slot_to_working_hours r cur (cur + r.durationMinutes)) periodEnd
        · rw [if_pos h3] at hs
          rcases List.mem_append.mp hs with hleft | hright
          · obtain ⟨hst, hen⟩ := mem_replicateSlots hleft
            have hbound : s.slot_end ≤
                constrain_slot_to_working_hours r s.slot_start
                  (s.slot_start + r.durationMinutes) := by
              rw [hst, hen]
              exact le_trans (min_le_left _ _) (le_refl _)
            refine ⟨?_, hbound, ?_⟩
            · intro t ht1 ht2
              refine constrain_within r w hw he s.slot_start
                (s.slot_start + r.durationMinutes) s.slot_end ?_ hbound t ht1 ht2
              rw [hst]
              exact h2
            · rw [hst]
              simpa [is_time_within_role_restrictions, hw] using h2
          · exact ih _ _ s hright
        · rw [if_neg h3] at hs
          by_cases h4 : consec + 1 ≥ 10
          · rw [if_pos h4] at hs
            exact ih _ _ s hs
          · rw [if_neg h4] at hs
            exact ih _ _ s hs

/-- Claim C7: every slot generated for a role with a working-hour window lies
entirely inside that window in clock time (wrapped across midnight when the
window is overnight); in particular a slot starting in the late half of an
overnight window (at or after the window start) ends no later than the
next-day window end, and a slot starting in the early half (before the window
end, before the window start) ends no later than the same-day window end. -/
theorem C7_window_invariant (r : GenRole) (w : RoleWindow)
    (hw : r.window = some w) (he : w.work_end_time < 1440)
    (periodStart periodEnd : ℕ) :
    ∀ s ∈ generate_slots_for_role r periodStart periodEnd,
      (∀ t, s.slot_start ≤ t → t < s.slot_end → timeWithin w t = true) ∧
      (w.is_overnight_shift = true → w.work_start_time ≤ clockTime s.slot_start →
        s.slot_end ≤ dayStart s.slot_start + w.work_end_time + 1440) ∧
      (w.is_overnight_shift = true → clockTime s.slot_start < w.work_end_time →
        clockTime s.slot_start < w.work_start_time →
        s.slot_end ≤ dayStart s.slot_start + w.work_end_time) := by
  intro s hs
  unfold generate_slots_for_role at hs
  by_cases hd : r.durationMinutes = 0
  · rw [if_pos hd] at hs
    cases hs
  · rw [if_neg hd] at hs
    obtain ⟨hin, hbound, hvalid⟩ := genLoop_window r w hw he periodEnd 5000 _ 0 s hs
    refine ⟨hin, ?_, ?_⟩
    · intro hov hlate
      simp only [constrain_slot_to_working_hours, hw] at hbound
      rw [if_pos hov, if_pos hlate] at hbound
      exact le_trans hbound (min_le_right _ _)
    · intro hov hearly hnotlate
      simp only [constrain_slot_to_working_hours, hw] at hbound
      rw [if_pos hov,
        if_neg (by omega : ¬ clockTime s.slot_start ≥ w.work_start_time),
        if_pos hearly] at hbound
      exact le_trans hbound (min_le_right _ _)

/-- The overnight role of the concrete scenario in the spec: window 22:00–06:00,
duration 8 hours, headcount 1. -/
def r7 : GenRole := ⟨1, 480, some ⟨1320, 360, true⟩⟩

/-- Claim C7 (witness): over a two-day period the generator emits the
22:00–06:00 slot, and minute 25:00 (1:00 at night) inside it is within the
wrapped window. -/
theorem C7_window_invariant_witness :
    timeWithin ⟨1320, 360, true⟩ 1500 = true :=
  ((C7_window_invariant r7 ⟨1320, 360, true⟩ rfl (by decide) 0 2880)
    ⟨1320, 1800, 1⟩ (by decide)).1 1500 (by decide) (by decide)

end Scheduler
